import Mathlib

set_option linter.unusedVariables false

/-! Shallow embedding of the test-environment lifecycle manager of
`src/workspace/commands/test.py`: the staleness evaluation in the plain run
path of `test`, the redevelop/recreate synchronization branch, the
entry-script normalizer `strip_version_from_entry_scripts`, and the
editable-dependency linker `install_editable_dependencies`. -/

/-! ## Staleness evaluation (plain run path of `test`, lines 103-115) -/

inductive OsError where
  | enoent
deriving DecidableEq

/-- Modification times visible to one staleness check.  `none` means the file
or directory does not exist, so `os.stat` on it raises `OSError`.  Mtimes are
modelled as naturals: only their linear order matters to the code. -/
structure EnvWorld where
  envdirMtime : Option Nat
  setupMtime : Option Nat
  reqMtime : Option Nat
deriving DecidableEq

/-- Model of `os.stat(path).st_mtime`: the mtime, or an `OSError` when the path is
absent. -/
def statMtime : Option Nat → Except OsError Nat
  | some t => Except.ok t
  | none => Except.error OsError.enoent

/-- The closure `requirements_updated` inside `test` (test.py lines 107-111):
stats `setup.py` unconditionally, folds in `requirements.txt` only when it
exists, and compares against the environment root's mtime. -/
def requirements_updated (w : EnvWorld) : Except OsError Bool :=
  match statMtime w.setupMtime with
  | Except.error e => Except.error e
  | Except.ok s =>
      let req_mtime := match w.reqMtime with
        | some r => max s r
        | none => s
      match statMtime w.envdirMtime with
      | Except.error e => Except.error e
      | Except.ok envM => Except.ok (decide (req_mtime > envM))

inductive PlainEnvAction where
  | redevelopFirst
  | runAsIs
  | oserror (e : OsError)
deriving DecidableEq

/-- The per-environment dispatch of the plain run path of `test` (test.py
lines 103-115, no dependencies/redevelop/recreate flag): a missing root
short-circuits (Python `or`) to a redevelop; otherwise `requirements_updated`
decides, and an `OSError` it raises propagates. -/
def plainTestEnvAction (w : EnvWorld) : PlainEnvAction :=
  match w.envdirMtime with
  | none => PlainEnvAction.redevelopFirst
  | some _ =>
      match requirements_updated w with
      | Except.error e => PlainEnvAction.oserror e
      | Except.ok true => PlainEnvAction.redevelopFirst
      | Except.ok false => PlainEnvAction.runAsIs

/-! ## Synchronization (redevelop/recreate branch of `test`, lines 88-101) -/

inductive SyncEvent where
  | toxBuild (envs : List String) (recreate : Bool)
  | normalize (env : String)
  | linkEditable (env : String)
deriving DecidableEq

/-- The post-synchronization loop of `test` (lines 99-101): for each
environment in order, entry-script normalization then editable-dependency
linking. -/
def postSyncEvents : List String → List SyncEvent
  | [] => []
  | e :: rest => SyncEvent.normalize e :: SyncEvent.linkEditable e :: postSyncEvents rest

/-- The redevelop/recreate branch of `test`: one tox invocation for the whole
batch, then the per-environment post-steps.  The process runner `run` lives in
`workspace/utils.py`, which is not among the sources; it is modelled from the
spec's process-runner contract: it raises on a nonzero exit, so a failing tox
build yields the batch error (`some exitCode`) and no post-step ever runs. -/
def syncEnvironments (envs : List String) (recreate : Bool) (toxExit : Nat) :
    List SyncEvent × Option Nat :=
  if toxExit = 0 then
    (SyncEvent.toxBuild envs recreate :: postSyncEvents envs, none)
  else
    ([SyncEvent.toxBuild envs recreate], some toxExit)

/-- Occurrence count of an event in a trace. -/
def countEv (x : SyncEvent) : List SyncEvent → Nat
  | [] => 0
  | y :: l => (if y = x then 1 else 0) + countEv x l

/-- Index of the first occurrence of an event in a trace (trace length when
absent). -/
def firstIdx (x : SyncEvent) : List SyncEvent → Nat
  | [] => 0
  | y :: l => if y = x then 0 else firstIdx x l + 1

/-- Occurrence count of an environment name in a batch. -/
def countStr (x : String) : List String → Nat
  | [] => 0
  | y :: l => (if y = x then 1 else 0) + countStr x l

/-! ## Entry-script normalization (`strip_version_from_entry_scripts`,
test.py lines 134-155).  Python strings are embedded as `List Char`. -/

/-- A character accepted by the regex character class `[0-9\.]`. -/
def isVerChar (c : Char) : Bool := c.isDigit || c == '.'

/-- Length of the match of the regex `name==[0-9\.]+` anchored at the head of
`s` (greedy in the version characters), or `none` when the pattern does not
match at the head.  The product name is matched literally, as the regex does
for names without metacharacters. -/
def matchLen (name s : List Char) : Option Nat :=
  if name.isPrefixOf s then
    match s.drop name.length with
    | '=' :: '=' :: u =>
        if (u.takeWhile isVerChar).length = 0 then none
        else some (name.length + 2 + (u.takeWhile isVerChar).length)
    | _ => none
  else none

/-- Embedding of `re.sub` with the pattern `name==[0-9\.]+` and replacement `name`: scan
left to right, replace each leftmost non-overlapping greedy match with the
bare name and resume after the matched text.  The first argument is the scan
budget; `s.length` always suffices because every step consumes at least one
character, and the exhaustion branch is never reached. -/
def subGo (name : List Char) : Nat → List Char → List Char
  | _, [] => []
  | 0, s => s
  | fuel + 1, c :: rest =>
      match matchLen name (c :: rest) with
      | some n => name ++ subGo name fuel ((c :: rest).drop n)
      | none => c :: subGo name fuel rest

/-- The full substitution `name_version_re.sub(name, s)`. -/
def subNameVer (name s : List Char) : List Char := subGo name s.length s

/-- Predicate for `name_version_re.search(s)` succeeding: the pattern `name==[0-9\.]+` occurs
somewhere in `s`. -/
def hasMatch (name : List Char) : List Char → Bool
  | [] => (matchLen name []).isSome
  | c :: rest => (matchLen name (c :: rest)).isSome || hasMatch name rest

/-- One generated entry script: its basename and its text content. -/
structure ScriptFile where
  name : String
  content : List Char
deriving DecidableEq

/-- The environment's script directory `tox.bindir(env)`: whether it exists,
and its files in `os.listdir` order. -/
structure BinDir where
  present : Bool
  files : List ScriptFile
deriving DecidableEq

/-- The loop of `strip_version_from_entry_scripts`: read each script, and when
the name-version pattern occurs in it, write back the substituted content and
record the script's basename in `removed_from`. -/
def stripFiles (pname : List Char) : List ScriptFile → List ScriptFile × List String
  | [] => ([], [])
  | f :: rest =>
      let r := stripFiles pname rest
      if hasMatch pname f.content then
        (ScriptFile.mk f.name (subNameVer pname f.content) :: r.1, f.name :: r.2)
      else
        (f :: r.1, r.2)

/-- The function `strip_version_from_entry_scripts` (test.py lines 134-155): when the
script directory exists, rewrite exactly the scripts whose content matches
`name==[0-9\.]+`; a missing directory is a no-op.  The second component is
`removed_from`, the basenames of the rewritten scripts, which the code logs. -/
def strip_version_from_entry_scripts (pname : List Char) (dir : BinDir) :
    BinDir × List String :=
  if dir.present then
    (BinDir.mk true (stripFiles pname dir.files).1, (stripFiles pname dir.files).2)
  else
    (dir, [])

/-! ## Editable-dependency linking (`install_editable_dependencies`,
test.py lines 204-227) -/

/-- The subprocess invocations `install_editable_dependencies` can make: the
`python -c` dependency introspection, and the per-product pip calls. -/
inductive PipEvent where
  | introspectDeps
  | pipUninstall (lib : List Char)
  | pipInstall (lib : List Char)
deriving DecidableEq

/-- Helper for Python `str.split()`: `cur` holds the current token reversed. -/
def pyTokensGo (cur : List Char) : List Char → List (List Char)
  | [] => if cur = [] then [] else [cur.reverse]
  | c :: rest =>
      if c.isWhitespace then
        if cur = [] then pyTokensGo [] rest else cur.reverse :: pyTokensGo [] rest
      else pyTokensGo (c :: cur) rest

/-- Python `str.split()` with no argument: split on whitespace runs, never
producing empty tokens. -/
def pyTokens (s : List Char) : List (List Char) := pyTokensGo [] s

/-- The list comprehension of test.py line 216: keep each configured name that
is both an available sibling product and a declared dependency, in the
configured order. -/
def selectEditableLibs (editable_dependencies available_products
    product_dependencies : List (List Char)) : List (List Char) :=
  editable_dependencies.filter
    (fun d => decide (d ∈ available_products) && decide (d ∈ product_dependencies))

/-- The per-product loop of test.py lines 220-227.  `log_exception` lives in
`workspace/utils.py`, which is not among the sources; it is modelled from the
spec: it catches and logs a failure of its body, so a failing `pip install`
(nonzero `iExit`) records the product in the logged-error list and the loop
continues with the next product; `pip uninstall` is invoked with
`raises=False` and can never abort.  Returns the subprocess events and the
products whose failure was logged. -/
def linkEditableLoop (uExit iExit : List Char → Nat) :
    List (List Char) → List PipEvent × List (List Char)
  | [] => ([], [])
  | l :: rest =>
      let r := linkEditableLoop uExit iExit rest
      (PipEvent.pipUninstall l :: PipEvent.pipInstall l :: r.1,
       if iExit l = 0 then r.2 else l :: r.2)

/-- The function `install_editable_dependencies` (test.py lines 204-227): return early on a
Python-falsy (empty) configuration value; otherwise introspect the installed
product's declared dependencies (one subprocess), select the editable set and
run the pip loop.  `expand` stands for `expand_product_groups`, modelled from
the spec (helpers.py is not among the sources) as the configured flattening of
named groups into product names. -/
def install_editable_dependencies (cfg : List Char)
    (expand : List (List Char) → List (List Char))
    (available_products product_dependencies : List (List Char))
    (uExit iExit : List Char → Nat) : List PipEvent × List (List Char) :=
  if cfg = [] then ([], [])
  else
    let r := linkEditableLoop uExit iExit
      (selectEditableLibs (expand (pyTokens cfg)) available_products
        product_dependencies)
    (PipEvent.introspectDeps :: r.1, r.2)

lemma countStr_eq_zero (x : String) (l : List String) (hx : x ∉ l) :
    countStr x l = 0 := by
  induction l with
  | nil => rfl
  | cons a rest ih =>
      have h1 : a ≠ x := fun h => hx (h ▸ List.mem_cons_self a rest)
      have h2 : x ∉ rest := fun h => hx (List.mem_cons_of_mem a h)
      simp [countStr, h1, ih h2]

lemma countStr_eq_one (x : String) (l : List String) (hnd : l.Nodup)
    (hx : x ∈ l) : countStr x l = 1 := by
  induction l with
  | nil => cases hx
  | cons a rest ih =>
      rcases List.nodup_cons.mp hnd with ⟨ha, hrest⟩
      rcases List.mem_cons.mp hx with h | h
      · subst h
        simp [countStr, countStr_eq_zero x rest ha]
      · have hax : a ≠ x := by
          intro he
          exact ha (he ▸ h)
        simp [countStr, hax, ih hrest h]

lemma countEv_postSync_normalize (e : String) (envs : List String) :
    countEv (SyncEvent.normalize e) (postSyncEvents envs) = countStr e envs := by
  induction envs with
  | nil => rfl
  | cons a rest ih => simp [postSyncEvents, countEv, countStr, ih]

lemma countEv_postSync_link (e : String) (envs : List String) :
    countEv (SyncEvent.linkEditable e) (postSyncEvents envs) = countStr e envs := by
  induction envs with
  | nil => rfl
  | cons a rest ih => simp [postSyncEvents, countEv, countStr, ih]

lemma firstIdx_normalize_lt_link (e : String) (envs : List String)
    (he : e ∈ envs) :
    firstIdx (SyncEvent.normalize e) (postSyncEvents envs) <
      firstIdx (SyncEvent.linkEditable e) (postSyncEvents envs) := by
  induction envs with
  | nil => cases he
  | cons a rest ih =>
      by_cases h : a = e
      · subst h
        simp [postSyncEvents, firstIdx]
      · rcases List.mem_cons.mp he with h' | h'
        · exact absurd h'.symm h
        · have := ih h'
          simp only [postSyncEvents, firstIdx]
          simp [h]
          omega

/-- C1: in a plain test run, an environment is redeveloped (synchronized)
before its commands run iff its root directory is missing or the newer of
`setup.py` and (when present) `requirements.txt` is strictly newer than the
root; an environment whose root is at least as new as both declaration files
is used as-is. -/
theorem plain_run_redevelops_iff_stale (w : EnvWorld) (s : Nat)
    (hs : w.setupMtime = some s) :
    (plainTestEnvAction w = PlainEnvAction.redevelopFirst ↔
      (w.envdirMtime = none ∨
        ∃ t, w.envdirMtime = some t ∧ t < max s (w.reqMtime.getD s))) ∧
    (plainTestEnvAction w = PlainEnvAction.runAsIs ↔
      ∃ t, w.envdirMtime = some t ∧ max s (w.reqMtime.getD s) ≤ t) := by
  obtain ⟨ed, su, rq⟩ := w
  simp only at hs
  subst hs
  cases ed with
  | none =>
      cases rq <;> simp [plainTestEnvAction]
  | some t =>
      have hval : requirements_updated ⟨some t, some s, rq⟩ =
          Except.ok (decide (max s (rq.getD s) > t)) := by
        cases rq <;> simp [requirements_updated, statMtime, Option.getD]
      by_cases hlt : t < max s (rq.getD s)
      · constructor
        · simp [plainTestEnvAction, hval, hlt, lt_sup_iff]
          exact lt_sup_iff.mp hlt
        · simp [plainTestEnvAction, hval, hlt]
          intro u
          rcases lt_sup_iff.mp hlt with h | h
          · omega
          · exact h
      · constructor
        · simp [plainTestEnvAction, hval, hlt, lt_sup_iff]
          exact sup_le_iff.mp (le_of_not_lt hlt)
        · simp [plainTestEnvAction, hval, hlt, sup_le_iff]
          exact sup_le_iff.mp (le_of_not_lt hlt)

/-- C1 witness: the spec scenario, root mtime 0 and `setup.py` mtime 1 with no
`requirements.txt`, triggers a redevelop. -/
theorem plain_run_redevelops_iff_stale_witness :
    plainTestEnvAction ⟨some 0, some 1, none⟩ = PlainEnvAction.redevelopFirst :=
  (plain_run_redevelops_iff_stale ⟨some 0, some 1, none⟩ 1 rfl).1.mpr
    (Or.inr ⟨0, rfl, by decide⟩)

/-- C2: after a successful tox invocation, the normalizer and the
editable-dependency linker each run exactly once per environment of the batch,
and the normalization of an environment strictly precedes its linking. -/
theorem sync_post_steps_once_in_order (envs : List String) (recreate : Bool)
    (e : String) (hnd : envs.Nodup) (he : e ∈ envs) :
    countEv (SyncEvent.normalize e) (syncEnvironments envs recreate 0).1 = 1 ∧
    countEv (SyncEvent.linkEditable e) (syncEnvironments envs recreate 0).1 = 1 ∧
    firstIdx (SyncEvent.normalize e) (syncEnvironments envs recreate 0).1 <
      firstIdx (SyncEvent.linkEditable e) (syncEnvironments envs recreate 0).1 := by
  have hc := countStr_eq_one e envs hnd he
  have h1 := countEv_postSync_normalize e envs
  have h2 := countEv_postSync_link e envs
  have h3 := firstIdx_normalize_lt_link e envs he
  refine ⟨?_, ?_, ?_⟩
  · simp [syncEnvironments, countEv]
    omega
  · simp [syncEnvironments, countEv]
    omega
  · simp [syncEnvironments, firstIdx]
    omega

/-- C2 witness: a two-environment batch, each post-step once and in order. -/
theorem sync_post_steps_once_in_order_witness :
    countEv (SyncEvent.normalize ("py27"))
        (syncEnvironments ["py27", "py34"] false 0).1 = 1 ∧
    countEv (SyncEvent.linkEditable ("py27"))
        (syncEnvironments ["py27", "py34"] false 0).1 = 1 ∧
    firstIdx (SyncEvent.normalize ("py27"))
        (syncEnvironments ["py27", "py34"] false 0).1 <
      firstIdx (SyncEvent.linkEditable ("py27"))
        (syncEnvironments ["py27", "py34"] false 0).1 :=
  sync_post_steps_once_in_order ["py27", "py34"] false ("py27")
    (by decide) (by decide)

/-- C3: a nonzero tox exit aborts the whole synchronization batch: the caller
sees the single batch failure, and no normalization and no editable linking
happens for any environment. -/
theorem sync_nonzero_exit_aborts_batch (envs : List String) (recreate : Bool)
    (code : Nat) (h : code ≠ 0) :
    syncEnvironments envs recreate code =
      ([SyncEvent.toxBuild envs recreate], some code) ∧
    (∀ e, countEv (SyncEvent.normalize e) (syncEnvironments envs recreate code).1 = 0 ∧
          countEv (SyncEvent.linkEditable e) (syncEnvironments envs recreate code).1 = 0) := by
  constructor
  · simp [syncEnvironments, h]
  · intro e
    constructor <;> simp [syncEnvironments, h, countEv]

/-- C3 witness: exit code 1 on a one-environment batch. -/
theorem sync_nonzero_exit_aborts_batch_witness :
    syncEnvironments ["py27"] false 1 =
      ([SyncEvent.toxBuild ["py27"] false], some 1) ∧
    (∀ e, countEv (SyncEvent.normalize e) (syncEnvironments ["py27"] false 1).1 = 0 ∧
          countEv (SyncEvent.linkEditable e) (syncEnvironments ["py27"] false 1).1 = 0) :=
  sync_nonzero_exit_aborts_batch ["py27"] false 1 (by decide)

/-- C10: with an existing environment root, `requirements_updated` raises a
filesystem error exactly when `setup.py` is absent, and returns a boolean
verdict exactly when `setup.py` exists: only `requirements.txt` is optional. -/
theorem requirements_updated_total_iff_setup (w : EnvWorld) (t : Nat)
    (he : w.envdirMtime = some t) :
    (w.setupMtime = none → requirements_updated w = Except.error OsError.enoent) ∧
    ((∃ b, requirements_updated w = Except.ok b) ↔ w.setupMtime ≠ none) := by
  obtain ⟨ed, su, rq⟩ := w
  simp only at he
  subst he
  cases su with
  | none =>
      constructor
      · intro _
        cases rq <;> rfl
      · cases rq <;> simp [requirements_updated, statMtime]
  | some s =>
      constructor
      · intro h
        cases h
      · cases rq <;> simp [requirements_updated, statMtime]

/-- C10 witness: root present, `requirements.txt` present, `setup.py` absent:
the check errors rather than producing a verdict. -/
theorem requirements_updated_total_iff_setup_witness :
    requirements_updated ⟨some 0, none, some 5⟩ = Except.error OsError.enoent :=
  (requirements_updated_total_iff_setup ⟨some 0, none, some 5⟩ 0 rfl).1 rfl

lemma stripFiles_fst (pname : List Char) (l : List ScriptFile) :
    (stripFiles pname l).1 = l.map (fun f =>
      if hasMatch pname f.content then
        ScriptFile.mk f.name (subNameVer pname f.content)
      else f) := by
  induction l with
  | nil => rfl
  | cons f rest ih =>
      by_cases h : hasMatch pname f.content = true <;> simp [stripFiles, h, ih]

lemma stripFiles_snd (pname : List Char) (l : List ScriptFile) :
    (stripFiles pname l).2 =
      (l.filter (fun f => hasMatch pname f.content)).map ScriptFile.name := by
  induction l with
  | nil => rfl
  | cons f rest ih =>
      by_cases h : hasMatch pname f.content = true <;>
        simp [stripFiles, h, ih, List.filter_cons]

lemma stripFiles_id_of_no_match (pname : List Char) (l : List ScriptFile)
    (h : ∀ f, f ∈ l → hasMatch pname f.content = false) :
    stripFiles pname l = (l, []) := by
  induction l with
  | nil => rfl
  | cons f rest ih =>
      have hf := h f (List.mem_cons_self f rest)
      have hrest : ∀ g, g ∈ rest → hasMatch pname g.content = false :=
        fun g hg => h g (List.mem_cons_of_mem f hg)
      simp [stripFiles, hf, ih hrest]

/-- C4: with an existing script directory, normalization rewrites a script to
its pattern-substituted content exactly when the name-version pattern occurs
in it and leaves every other script byte-for-byte identical; the scenario
content pinning the product's own version loses the pin, while the content
naming another tool is untouched. -/
theorem strip_rewrites_exactly_matching_files (pname : List Char) (dir : BinDir)
    (hp : dir.present = true) :
    (strip_version_from_entry_scripts pname dir).1.files = dir.files.map (fun f =>
        if hasMatch pname f.content then
          ScriptFile.mk f.name (subNameVer pname f.content)
        else f) ∧
    (∀ f, f ∈ dir.files → hasMatch pname f.content = false →
        f ∈ (strip_version_from_entry_scripts pname dir).1.files) ∧
    subNameVer ("mytool".toList) ("mytool==1.4.2 --flag".toList) =
      ("mytool --flag".toList) ∧
    hasMatch ("mytool".toList) ("othertool --flag".toList) = false := by
  refine ⟨?_, ?_, ?_, ?_⟩
  · simp [strip_version_from_entry_scripts, hp, stripFiles_fst]
  · intro f hf hm
    simp [strip_version_from_entry_scripts, hp, stripFiles_fst]
    exact ⟨f, hf, by simp [hm]⟩
  · decide
  · decide

/-- C4 witness: a directory holding the two scenario scripts. -/
theorem strip_rewrites_exactly_matching_files_witness :
    (strip_version_from_entry_scripts ("mytool".toList)
        (BinDir.mk true [ScriptFile.mk ("s1") ("mytool==1.4.2 --flag".toList),
          ScriptFile.mk ("s2") ("othertool --flag".toList)])).1.files =
      (BinDir.mk true [ScriptFile.mk ("s1") ("mytool==1.4.2 --flag".toList),
          ScriptFile.mk ("s2") ("othertool --flag".toList)]).files.map (fun f =>
        if hasMatch ("mytool".toList) f.content then
          ScriptFile.mk f.name (subNameVer ("mytool".toList) f.content)
        else f) :=
  (strip_rewrites_exactly_matching_files ("mytool".toList)
    (BinDir.mk true [ScriptFile.mk ("s1") ("mytool==1.4.2 --flag".toList),
      ScriptFile.mk ("s2") ("othertool --flag".toList)]) rfl).1

/-- C5 counterexample: product `mytool`, one script with content
`mytool==1.2==3`.  The first pass rewrites it to `mytool==3`, which still
matches the pattern, so the second pass rewrites again and returns a nonempty
modified-script list: normalization is not idempotent as claimed. -/
theorem strip_second_pass_modifies :
    ((strip_version_from_entry_scripts ("mytool".toList)
        (BinDir.mk true
          [ScriptFile.mk ("console") ("mytool==1.2==3".toList)])).1.files =
      [ScriptFile.mk ("console") ("mytool==3".toList)]) ∧
    (strip_version_from_entry_scripts ("mytool".toList)
        (strip_version_from_entry_scripts ("mytool".toList)
          (BinDir.mk true
            [ScriptFile.mk ("console") ("mytool==1.2==3".toList)])).1).2 =
      ["console"] ∧
    (strip_version_from_entry_scripts ("mytool".toList)
        (strip_version_from_entry_scripts ("mytool".toList)
          (BinDir.mk true
            [ScriptFile.mk ("console") ("mytool==1.2==3".toList)])).1).2 ≠
      ([] : List String) := by
  refine ⟨by decide, by decide, by decide⟩

/-- C5 amended: a second normalization pass modifies no file and returns the
empty modified-script list whenever no script rewritten by the first pass
still contains the name-version pattern; unconditional idempotence fails
because a rewrite can itself create a fresh match. -/
theorem strip_idempotent_of_no_residual_match (pname : List Char) (dir : BinDir)
    (h : ∀ f, f ∈ (strip_version_from_entry_scripts pname dir).1.files →
        hasMatch pname f.content = false) :
    strip_version_from_entry_scripts pname
        (strip_version_from_entry_scripts pname dir).1 =
      ((strip_version_from_entry_scripts pname dir).1, []) := by
  by_cases hp : dir.present = true
  · have h' : ∀ f, f ∈ (stripFiles pname dir.files).1 →
        hasMatch pname f.content = false := by
      intro f hf
      apply h
      simp [strip_version_from_entry_scripts, hp]
      exact hf
    have hfiles := stripFiles_id_of_no_match pname (stripFiles pname dir.files).1 h'
    simp [strip_version_from_entry_scripts, hp, hfiles]
  · simp [strip_version_from_entry_scripts, hp]

/-- C5 amended witness: after one pass over the scenario scripts nothing
matches any more, so the second pass is a no-op with an empty modified list. -/
theorem strip_idempotent_of_no_residual_match_witness :
    strip_version_from_entry_scripts ("mytool".toList)
        (strip_version_from_entry_scripts ("mytool".toList)
          (BinDir.mk true [ScriptFile.mk ("s1") ("mytool==1.4.2 --flag".toList),
            ScriptFile.mk ("s2") ("othertool --flag".toList)])).1 =
      ((strip_version_from_entry_scripts ("mytool".toList)
          (BinDir.mk true [ScriptFile.mk ("s1") ("mytool==1.4.2 --flag".toList),
            ScriptFile.mk ("s2") ("othertool --flag".toList)])).1, []) :=
  strip_idempotent_of_no_residual_match ("mytool".toList)
    (BinDir.mk true [ScriptFile.mk ("s1") ("mytool==1.4.2 --flag".toList),
      ScriptFile.mk ("s2") ("othertool --flag".toList)]) (by decide)

/-- C6: `removed_from`, the modified-script list the function produces, is
exactly the basenames of the scripts whose content matched (the rewritten
ones), and a missing script directory is a no-op yielding the empty list
rather than a failure. -/
theorem strip_returns_modified_names (pname : List Char) (dir : BinDir) :
    (dir.present = false →
      strip_version_from_entry_scripts pname dir = (dir, [])) ∧
    (dir.present = true →
      (strip_version_from_entry_scripts pname dir).2 =
        (dir.files.filter (fun f => hasMatch pname f.content)).map
          ScriptFile.name) := by
  constructor
  · intro hp
    simp [strip_version_from_entry_scripts, hp]
  · intro hp
    simp [strip_version_from_entry_scripts, hp, stripFiles_snd]

/-- C6 witness: a missing script directory. -/
theorem strip_returns_modified_names_witness :
    strip_version_from_entry_scripts ("mytool".toList) (BinDir.mk false []) =
      (BinDir.mk false [], []) :=
  (strip_returns_modified_names ("mytool".toList) (BinDir.mk false [])).1 rfl

lemma selectEditableLibs_toFinset (ed av dp : List (List Char)) :
    (selectEditableLibs ed av dp).toFinset =
      ed.toFinset ∩ av.toFinset ∩ dp.toFinset := by
  ext x
  simp [selectEditableLibs, List.mem_filter, and_assoc]

/-- C7: the set of products the linker selects for editable install is the
three-way intersection of the configured allow-list, the available sibling
products and the declared dependency names, and it is invariant under
reordering of all three inputs. -/
theorem editable_libs_is_intersection (ed av dp ed2 av2 dp2 : List (List Char))
    (h1 : ed.Perm ed2) (h2 : av.Perm av2) (h3 : dp.Perm dp2) :
    (selectEditableLibs ed av dp).toFinset =
      ed.toFinset ∩ av.toFinset ∩ dp.toFinset ∧
    (selectEditableLibs ed2 av2 dp2).toFinset =
      (selectEditableLibs ed av dp).toFinset := by
  refine ⟨selectEditableLibs_toFinset ed av dp, ?_⟩
  rw [selectEditableLibs_toFinset, selectEditableLibs_toFinset,
    ← List.toFinset_eq_of_perm _ _ h1, ← List.toFinset_eq_of_perm _ _ h2,
    ← List.toFinset_eq_of_perm _ _ h3]

/-- C7 witness: the spec scenario yields exactly libA, and reordering all
three inputs leaves the result set unchanged. -/
theorem editable_libs_is_intersection_witness :
    ((selectEditableLibs ["libA".toList, "libB".toList] ["libA".toList]
        ["libA".toList, "libC".toList]).toFinset =
      (["libA".toList, "libB".toList] : List (List Char)).toFinset ∩
        (["libA".toList] : List (List Char)).toFinset ∩
        (["libA".toList, "libC".toList] : List (List Char)).toFinset ∧
    (selectEditableLibs ["libB".toList, "libA".toList] ["libA".toList]
        ["libC".toList, "libA".toList]).toFinset =
      (selectEditableLibs ["libA".toList, "libB".toList] ["libA".toList]
        ["libA".toList, "libC".toList]).toFinset) ∧
    selectEditableLibs ["libA".toList, "libB".toList] ["libA".toList]
        ["libA".toList, "libC".toList] = [("libA".toList)] :=
  ⟨editable_libs_is_intersection
      ["libA".toList, "libB".toList] ["libA".toList]
      ["libA".toList, "libC".toList]
      ["libB".toList, "libA".toList] ["libA".toList]
      ["libC".toList, "libA".toList]
      (List.Perm.swap ("libB".toList) ("libA".toList) [])
      (List.Perm.refl ["libA".toList])
      (List.Perm.swap ("libC".toList) ("libA".toList) []),
   by decide⟩

/-- C8 counterexample: a whitespace-only configuration value is Python-truthy,
so the early return is not taken even though the parsed allow-list is empty:
the dependency-introspection subprocess still runs, violating the
zero-subprocess claim. -/
theorem linker_whitespace_config_subprocess :
    pyTokens (" ".toList) = [] ∧
    (install_editable_dependencies (" ".toList) id [] [] (fun _ => 0)
        (fun _ => 0)).1 = [PipEvent.introspectDeps] ∧
    (install_editable_dependencies (" ".toList) id [] [] (fun _ => 0)
        (fun _ => 0)).1 ≠ [] := by
  refine ⟨by decide, by decide, by decide⟩

/-- C8 amended: with an empty (Python-falsy) configuration value the linker
returns before any subprocess runs, neither introspection nor pip; with a
nonempty configuration whose parsed allow-list is empty, no pip call is made
but the single introspection subprocess still runs. -/
theorem linker_noop_on_empty_config (cfg : List Char)
    (expand : List (List Char) → List (List Char))
    (available_products product_dependencies : List (List Char))
    (uExit iExit : List Char → Nat) (hexp : expand [] = []) :
    (cfg = [] → install_editable_dependencies cfg expand available_products
        product_dependencies uExit iExit = ([], [])) ∧
    (pyTokens cfg = [] → cfg ≠ [] →
      install_editable_dependencies cfg expand available_products
        product_dependencies uExit iExit = ([PipEvent.introspectDeps], [])) := by
  constructor
  · intro h
    simp [install_editable_dependencies, h]
  · intro ht hc
    simp [install_editable_dependencies, hc, ht, hexp, selectEditableLibs,
      linkEditableLoop]

/-- C8 amended witness: empty config is a full no-op. -/
theorem linker_noop_on_empty_config_witness :
    install_editable_dependencies [] id [] [] (fun _ => 0) (fun _ => 0) =
      ([], []) :=
  (linker_noop_on_empty_config [] id [] [] (fun _ => 0) (fun _ => 0) rfl).1 rfl

lemma linkEditableLoop_events (uExit iExit : List Char → Nat)
    (libs : List (List Char)) (m : List Char) (hm : m ∈ libs) :
    PipEvent.pipUninstall m ∈ (linkEditableLoop uExit iExit libs).1 ∧
    PipEvent.pipInstall m ∈ (linkEditableLoop uExit iExit libs).1 := by
  induction libs with
  | nil => cases hm
  | cons l rest ih =>
      simp only [linkEditableLoop, List.mem_cons]
      rcases List.mem_cons.mp hm with h | h
      · subst h
        exact ⟨Or.inl rfl, Or.inr (Or.inl rfl)⟩
      · rcases ih h with ⟨h1, h2⟩
        exact ⟨Or.inr (Or.inr h1), Or.inr (Or.inr h2)⟩

lemma linkEditableLoop_logged (uExit iExit : List Char → Nat)
    (libs : List (List Char)) (l : List Char) (hl : l ∈ libs)
    (hf : iExit l ≠ 0) : l ∈ (linkEditableLoop uExit iExit libs).2 := by
  induction libs with
  | nil => cases hl
  | cons a rest ih =>
      rcases List.mem_cons.mp hl with h | h
      · subst h
        simp [linkEditableLoop, hf]
      · by_cases ha : iExit a = 0 <;> simp [linkEditableLoop, ha, ih h]

/-- C9: with at least two products in the editable-link set, a failing
`pip install` of one product is caught and logged and does not abort the
loop: every product of the set still gets its uninstall and its editable
install invocation. -/
theorem linker_one_failure_does_not_abort (cfg : List Char)
    (expand : List (List Char) → List (List Char))
    (available_products product_dependencies : List (List Char))
    (uExit iExit : List Char → Nat) (l m : List Char) (hcfg : cfg ≠ [])
    (hlen : 2 ≤ (selectEditableLibs (expand (pyTokens cfg)) available_products
        product_dependencies).length)
    (hl : l ∈ selectEditableLibs (expand (pyTokens cfg)) available_products
        product_dependencies)
    (hm : m ∈ selectEditableLibs (expand (pyTokens cfg)) available_products
        product_dependencies)
    (hf : iExit l ≠ 0) :
    l ∈ (install_editable_dependencies cfg expand available_products
        product_dependencies uExit iExit).2 ∧
    PipEvent.pipUninstall m ∈ (install_editable_dependencies cfg expand
        available_products product_dependencies uExit iExit).1 ∧
    PipEvent.pipInstall m ∈ (install_editable_dependencies cfg expand
        available_products product_dependencies uExit iExit).1 := by
  have he := linkEditableLoop_events uExit iExit
    (selectEditableLibs (expand (pyTokens cfg)) available_products
      product_dependencies) m hm
  have hr := linkEditableLoop_logged uExit iExit
    (selectEditableLibs (expand (pyTokens cfg)) available_products
      product_dependencies) l hl hf
  have hif : install_editable_dependencies cfg expand available_products
      product_dependencies uExit iExit =
      (PipEvent.introspectDeps :: (linkEditableLoop uExit iExit
          (selectEditableLibs (expand (pyTokens cfg)) available_products
            product_dependencies)).1,
        (linkEditableLoop uExit iExit
          (selectEditableLibs (expand (pyTokens cfg)) available_products
            product_dependencies)).2) := by
    simp [install_editable_dependencies, hcfg]
  rw [hif]
  exact ⟨hr, List.mem_cons_of_mem _ he.1, List.mem_cons_of_mem _ he.2⟩

/-- C9 witness: two configured sibling products that are both available and
declared; the install of libA fails, and libB is still uninstalled and
reinstalled in editable mode. -/
theorem linker_one_failure_does_not_abort_witness :
    ("libA".toList ∈ (install_editable_dependencies ("libA libB".toList) id
        ["libA".toList, "libB".toList] ["libA".toList, "libB".toList]
        (fun _ => 0) (fun x => if x = ("libA".toList) then 1 else 0)).2) ∧
    PipEvent.pipUninstall ("libB".toList) ∈ (install_editable_dependencies
        ("libA libB".toList) id ["libA".toList, "libB".toList]
        ["libA".toList, "libB".toList] (fun _ => 0)
        (fun x => if x = ("libA".toList) then 1 else 0)).1 ∧
    PipEvent.pipInstall ("libB".toList) ∈ (install_editable_dependencies
        ("libA libB".toList) id ["libA".toList, "libB".toList]
        ["libA".toList, "libB".toList] (fun _ => 0)
        (fun x => if x = ("libA".toList) then 1 else 0)).1 :=
  linker_one_failure_does_not_abort ("libA libB".toList) id
    ["libA".toList, "libB".toList] ["libA".toList, "libB".toList]
    (fun _ => 0) (fun x => if x = ("libA".toList) then 1 else 0)
    ("libA".toList) ("libB".toList) (by decide) (by decide) (by decide)
    (by decide) (by decide)
